import Mathlib

/-!
# Verification of the materials-predictor pipeline (`Application.py`)

A shallow embedding of the pure core of `Application.py`:

* `extract_formulas` — parsing untrusted LLM text into a validated,
  deduplicated list of chemical-formula tokens (regex fence stripping,
  first-bracket location, `ast.literal_eval` with a `json.loads` fallback,
  token validation, order-preserving dedup);
* `final_materials` — the consensus intersection of two approval lists;
* `query_mp_for_formula` / `find_best_material` — per-formula best record
  selection and global top-3 ranking by formation energy (Python's `sorted`
  is a stable ascending sort, modelled with `List.insertionSort`);
* `make_data_download_link` — the base64 data-URI download anchor;
* the provider-call error boundaries and the startup credential check.

Modelling conventions: Python strings are `String`/`List Char`; floats
(formation energies etc.) are `Rat` — only ordering of the values is ever
used, never float arithmetic; `None` is `Option.none`; a call that may
raise is a value of `Except`/`Option` type.

The two stdlib parsers `ast.literal_eval` and `json.loads` are library
collaborators, like the Materials Project client and the two model
backends.  The extractor is therefore parameterized over them
(`extract_formulasP`), and the claims whose truth depends on the exact
accept-set of those parsers quantify over the parser functions, exactly
as the ranking claims quantify over the database lookup.  The file also
provides concrete executable parsers `literal_eval` / `json_loads` for a
*fragment* of the real grammars — flat lists of single- or double-quoted
plain string literals (with the standard escape forms), numbers,
booleans and `None`/`null` — and `extract_formulas` is the extractor
instantiated with them.  Python literal shapes outside the fragment
(tuples, parenthesised literals, implicit string concatenation, raw,
byte and triple-quoted strings, named `\N` escapes) are parsed as
failures by the fragment parsers, and code points Lean's `Char` cannot
represent (lone surrogates) make the fragment parsers fail as well;
the theorems that use the fragment parsers (totality, and the round
trip through `str()` of validated token lists) hold on inputs where the
fragment agrees with CPython.
-/

/-! ## Character helpers -/

/-- Single-quote character `'`. -/
def squote : Char := Char.ofNat 39

/-- Double-quote character `"`. -/
def dquote : Char := Char.ofNat 34

/-- Backslash character. -/
def bslash : Char := Char.ofNat 92

/-- Backtick character, used by the code-fence regex. -/
def btick : Char := Char.ofNat 96

/-- Whitespace the CPython tokenizer skips between tokens: space, tab,
form feed, and (inside brackets) the line breaks `\n` and `\r`.
Vertical tab is NOT tokenizer whitespace — `['a',\x0b'b']` is a
`SyntaxError`. -/
def isPyTokWs (c : Char) : Bool :=
  c = ' ' || c = '\t' || c = Char.ofNat 12 || c = '\n' || c = '\r'

/-- JSON insignificant whitespace: space, tab, `\n`, `\r` (RFC 8259). -/
def isJsonWs (c : Char) : Bool :=
  c = ' ' || c = '\t' || c = '\n' || c = '\r'

/-- Tokenizer whitespace of the active parser. -/
def tokWs (py : Bool) (c : Char) : Bool :=
  if py then isPyTokWs c else isJsonWs c

/-- Drop leading tokenizer whitespace. -/
def skipWs (py : Bool) (cs : List Char) : List Char := cs.dropWhile (tokWs py)

/-- Is the whole remainder tokenizer whitespace? -/
def isAllWs (py : Bool) (cs : List Char) : Bool := cs.all (tokWs py)

/-- The code points for which Python's `str.isspace()` holds — exactly
the characters `str.strip()` removes: `\t\n\v\f\r`, the separators
`\x1c`–`\x1f`, space, NEL (U+0085), NBSP (U+00A0), Ogham space mark
(U+1680), the U+2000–U+200A spaces, LS/PS (U+2028/U+2029), NNBSP
(U+202F), MMSP (U+205F) and the ideographic space (U+3000). -/
def isPyStripWs (c : Char) : Bool :=
  let n := c.toNat
  (9 ≤ n && n ≤ 13) || (28 ≤ n && n ≤ 32) || n = 133 || n = 160 || n = 5760
    || (8192 ≤ n && n ≤ 8202) || n = 8232 || n = 8233 || n = 8239 || n = 8287
    || n = 12288

/-! ## Python literal values

The value universe produced by `ast.literal_eval` / `json.loads`, as far
as `extract_formulas` can observe it: it keeps string elements and drops
everything else, so non-string values only need to be distinguishable
from strings.  `pother` stands for any value outside the enumerated
shapes (tuples, dicts, sets, bytes, complex numbers, …). -/

inductive PyVal : Type
  | pstr (s : String)
  | pnum (raw : String)
  | pbool (b : Bool)
  | pnone
  | plist (items : List PyVal)
  | pother

/-! ## String-literal bodies -/

/-- Value of one hexadecimal digit. -/
def hexVal (c : Char) : Option Nat :=
  let n := c.toNat
  if 48 ≤ n ∧ n ≤ 57 then some (n - 48)
  else if 97 ≤ n ∧ n ≤ 102 then some (n - 87)
  else if 65 ≤ n ∧ n ≤ 70 then some (n - 55)
  else none

def isOctDigit (c : Char) : Bool := 48 ≤ c.toNat && c.toNat ≤ 55

def octDigitVal (c : Char) : Nat := c.toNat - 48

/-- Single-character escapes of Python string literals. -/
def escCharPy (e : Char) : Option Char :=
  if e = bslash then some bslash
  else if e = squote then some squote
  else if e = dquote then some dquote
  else if e = 'a' then some (Char.ofNat 7)
  else if e = 'b' then some (Char.ofNat 8)
  else if e = 'f' then some (Char.ofNat 12)
  else if e = 'n' then some '\n'
  else if e = 'r' then some '\r'
  else if e = 't' then some '\t'
  else if e = 'v' then some (Char.ofNat 11)
  else none

/-- Single-character escapes of JSON string literals. -/
def escCharJson (e : Char) : Option Char :=
  if e = dquote then some dquote
  else if e = bslash then some bslash
  else if e = '/' then some '/'
  else if e = 'b' then some (Char.ofNat 8)
  else if e = 'f' then some (Char.ofNat 12)
  else if e = 'n' then some '\n'
  else if e = 'r' then some '\r'
  else if e = 't' then some '\t'
  else none

/-- May character `c` appear verbatim (unescaped, not the closing quote)
inside a string literal?  Python rejects a raw newline or carriage
return inside a single-line literal; JSON rejects every control
character. -/
def plainStrChar (py : Bool) (c : Char) : Bool :=
  if py then !(c = '\n' || c = '\r') else decide (32 ≤ c.toNat)

/-- `parseStrBody py q fuel cs` consumes the body of a quoted string
literal after the opening quote `q`, up to and including the closing
quote.  The fuel only bounds the recursion depth: every step consumes at
least one character, so `length + 1` always suffices.
Python mode handles the one-character escapes, `\xHH`, `\uXXXX`,
`\UXXXXXXXX`, octal escapes of up to three digits, backslash-newline
line continuation, and the keep-the-backslash fallback for unknown
escapes; `\N{...}` named escapes and escapes denoting lone surrogates
(no `Char` representation) fail.  JSON mode handles the JSON escapes and
`\uXXXX` including surrogate pairs; a lone surrogate fails. -/
def parseStrBody (py : Bool) (q : Char) : Nat → List Char → Option (List Char × List Char)
  | 0, _ => none
  | _ + 1, [] => none
  | fuel + 1, c :: rest =>
    if c = q then some ([], rest)
    else if c = bslash then
      match rest with
      | [] => none
      | e :: rest2 =>
        if py then
          if e = 'x' then
            match rest2 with
            | h1 :: h2 :: rest3 =>
              match hexVal h1, hexVal h2 with
              | some v1, some v2 =>
                match parseStrBody py q fuel rest3 with
                | some (body, after) => some (Char.ofNat (16 * v1 + v2) :: body, after)
                | none => none
              | _, _ => none
            | _ => none
          else if e = 'u' then
            match rest2 with
            | h1 :: h2 :: h3 :: h4 :: rest3 =>
              match hexVal h1, hexVal h2, hexVal h3, hexVal h4 with
              | some v1, some v2, some v3, some v4 =>
                let v := ((v1 * 16 + v2) * 16 + v3) * 16 + v4
                if 55296 ≤ v ∧ v ≤ 57343 then none
                else
                  match parseStrBody py q fuel rest3 with
                  | some (body, after) => some (Char.ofNat v :: body, after)
                  | none => none
              | _, _, _, _ => none
            | _ => none
          else if e = 'U' then
            match rest2 with
            | h1 :: h2 :: h3 :: h4 :: h5 :: h6 :: h7 :: h8 :: rest3 =>
              match hexVal h1, hexVal h2, hexVal h3, hexVal h4,
                  hexVal h5, hexVal h6, hexVal h7, hexVal h8 with
              | some v1, some v2, some v3, some v4, some v5, some v6, some v7, some v8 =>
                let v := ((((((v1 * 16 + v2) * 16 + v3) * 16 + v4) * 16 + v5) * 16 + v6)
                  * 16 + v7) * 16 + v8
                if (55296 ≤ v ∧ v ≤ 57343) ∨ 1114111 < v then none
                else
                  match parseStrBody py q fuel rest3 with
                  | some (body, after) => some (Char.ofNat v :: body, after)
                  | none => none
              | _, _, _, _, _, _, _, _ => none
            | _ => none
          else if isOctDigit e then
            match rest2 with
            | d2 :: rest3 =>
              if isOctDigit d2 then
                match rest3 with
                | d3 :: rest4 =>
                  if isOctDigit d3 then
                    match parseStrBody py q fuel rest4 with
                    | some (body, after) => some (Char.ofNat
                        (octDigitVal e * 64 + octDigitVal d2 * 8 + octDigitVal d3)
                        :: body, after)
                    | none => none
                  else
                    match parseStrBody py q fuel (d3 :: rest4) with
                    | some (body, after) => some (Char.ofNat
                        (octDigitVal e * 8 + octDigitVal d2) :: body, after)
                    | none => none
                | [] => none
              else
                match parseStrBody py q fuel (d2 :: rest3) with
                | some (body, after) => some (Char.ofNat (octDigitVal e) :: body, after)
                | none => none
            | [] => none
          else if e = '\n' then parseStrBody py q fuel rest2
          else if e = '\r' then
            match rest2 with
            | '\n' :: rest3 => parseStrBody py q fuel rest3
            | _ => parseStrBody py q fuel rest2
          else
            match escCharPy e with
            | some d =>
              match parseStrBody py q fuel rest2 with
              | some (body, after) => some (d :: body, after)
              | none => none
            | none =>
              if e = 'N' then none
              else
                match parseStrBody py q fuel rest2 with
                | some (body, after) => some (bslash :: e :: body, after)
                | none => none
        else
          if e = 'u' then
            match rest2 with
            | h1 :: h2 :: h3 :: h4 :: rest3 =>
              match hexVal h1, hexVal h2, hexVal h3, hexVal h4 with
              | some v1, some v2, some v3, some v4 =>
                let v := ((v1 * 16 + v2) * 16 + v3) * 16 + v4
                if 55296 ≤ v ∧ v ≤ 56319 then
                  match rest3 with
                  | b1 :: u1 :: g1 :: g2 :: g3 :: g4 :: rest4 =>
                    if b1 = bslash ∧ u1 = 'u' then
                      match hexVal g1, hexVal g2, hexVal g3, hexVal g4 with
                      | some w1, some w2, some w3, some w4 =>
                        let w := ((w1 * 16 + w2) * 16 + w3) * 16 + w4
                        if 56320 ≤ w ∧ w ≤ 57343 then
                          match parseStrBody py q fuel rest4 with
                          | some (body, after) => some (Char.ofNat
                              (65536 + (v - 55296) * 1024 + (w - 56320)) :: body, after)
                          | none => none
                        else none
                      | _, _, _, _ => none
                    else none
                  | _ => none
                else if 56320 ≤ v ∧ v ≤ 57343 then none
                else
                  match parseStrBody py q fuel rest3 with
                  | some (body, after) => some (Char.ofNat v :: body, after)
                  | none => none
              | _, _, _, _ => none
            | _ => none
          else
            match escCharJson e with
            | some d =>
              match parseStrBody py q fuel rest2 with
              | some (body, after) => some (d :: body, after)
              | none => none
            | none => none
    else if plainStrChar py c then
      match parseStrBody py q fuel rest with
      | some (body, after) => some (c :: body, after)
      | none => none
    else none

/-! ## Numeric and keyword literals -/

/-- A maximal run of digits of the class `isD`; in Python mode a single
underscore is allowed between two digits (`1_000`) and is kept in the
raw text.  An underscore not followed by a digit is not consumed, so
`1_x` leaves `_x` behind (and the element parse then fails, as the
CPython tokenizer does). -/
def digitsUF (py : Bool) (isD : Char → Bool) : Nat → List Char → List Char × List Char
  | 0, cs => ([], cs)
  | _ + 1, [] => ([], [])
  | fuel + 1, c :: rest =>
    if isD c then
      match rest with
      | '_' :: rest2 =>
        if py then
          match rest2 with
          | d :: _ =>
            if isD d then
              let (ds, r) := digitsUF py isD fuel rest2
              (c :: '_' :: ds, r)
            else ([c], '_' :: rest2)
          | [] => ([c], ['_'])
        else ([c], '_' :: rest2)
      | _ =>
        let (ds, r) := digitsUF py isD fuel rest
        (c :: ds, r)
    else ([], c :: rest)

/-- `digitsU` with enough fuel for its input. -/
def digitsU (py : Bool) (isD : Char → Bool) (cs : List Char) : List Char × List Char :=
  digitsUF py isD (cs.length + 1) cs

/-- Digits with any underscores removed, for the leading-zero checks. -/
def pureDigits (ds : List Char) : List Char := ds.filter (fun c => c ≠ '_')

/-- Parse an optional exponent suffix after the mantissa `raw`; both
grammars allow `e`/`E` with an optional sign and a nonempty digit run
(underscored in Python). -/
def parseExpPart (py : Bool) (raw : List Char) (cs : List Char) :
    Option (PyVal × List Char) :=
  match cs with
  | c :: rest =>
    if c = 'e' || c = 'E' then
      let (esgn, cs1) :=
        match rest with
        | d :: r2 => if d = '-' || d = '+' then ([d], r2) else (([] : List Char), rest)
        | [] => (([] : List Char), rest)
      let (ed, cs2) := digitsU py Char.isDigit cs1
      if ed.isEmpty then none
      else some (PyVal.pnum (String.mk (raw ++ c :: (esgn ++ ed))), cs2)
    else some (PyVal.pnum (String.mk raw), cs)
  | [] => some (PyVal.pnum (String.mk raw), cs)

def isHexDigit (c : Char) : Bool := (hexVal c).isSome

def isBinDigit (c : Char) : Bool := c = '0' || c = '1'

/-- Parse a numeric literal, keeping the value as raw text.  Python
mode follows the Python 3 grammar: optional sign (unary `+`/`-`),
`0x`/`0o`/`0b` radix integers, underscored digit runs, floats `1.`,
`.5`, `01.5`, and the leading-zero rule for decimal integers (zeros
only, so `00` is legal but `01` is a syntax error).  JSON mode follows
RFC 8259: optional `-` only, no leading zeros, a fraction needs digits
on both sides of the point, no underscores or radix forms. -/
def parseNumber (py : Bool) (cs : List Char) : Option (PyVal × List Char) :=
  let (sgn, cs1) :=
    match cs with
    | c :: rest =>
      if c = '-' || (py && c = '+') then ([c], rest) else (([] : List Char), cs)
    | [] => (([] : List Char), cs)
  match cs1 with
  | '0' :: x :: rest2 =>
    if py && (x = 'x' || x = 'X') then
      let (ds, r) := digitsU py isHexDigit rest2
      if ds.isEmpty then none
      else some (PyVal.pnum (String.mk (sgn ++ '0' :: x :: ds)), r)
    else if py && (x = 'o' || x = 'O') then
      let (ds, r) := digitsU py isOctDigit rest2
      if ds.isEmpty then none
      else some (PyVal.pnum (String.mk (sgn ++ '0' :: x :: ds)), r)
    else if py && (x = 'b' || x = 'B') then
      let (ds, r) := digitsU py isBinDigit rest2
      if ds.isEmpty then none
      else some (PyVal.pnum (String.mk (sgn ++ '0' :: x :: ds)), r)
    else parseDecimal py sgn cs1
  | _ => parseDecimal py sgn cs1
where
  /-- Decimal integers and floats, shared by both grammars. -/
  parseDecimal (py : Bool) (sgn cs1 : List Char) : Option (PyVal × List Char) :=
    let (ip, cs2) := digitsU py Char.isDigit cs1
    match cs2 with
    | '.' :: cs3 =>
      let (fp, cs4) := digitsU py Char.isDigit cs3
      if ip.isEmpty && fp.isEmpty then none
      else if !py && (ip.isEmpty || fp.isEmpty || jsonLeadingZero ip) then none
      else parseExpPart py (sgn ++ ip ++ '.' :: fp) cs4
    | _ =>
      if ip.isEmpty then none
      else
        match cs2 with
        | c :: _ =>
          if c = 'e' || c = 'E' then
            if !py && jsonLeadingZero ip then none
            else parseExpPart py (sgn ++ ip) cs2
          else intCheck py sgn ip cs2
        | [] => intCheck py sgn ip cs2
  /-- Leading-zero rules for a decimal integer literal. -/
  intCheck (py : Bool) (sgn ip cs2 : List Char) : Option (PyVal × List Char) :=
    let pd := pureDigits ip
    if py then
      if pd.head? = some '0' && !pd.all (fun c => c = '0') then none
      else some (PyVal.pnum (String.mk (sgn ++ ip)), cs2)
    else
      if jsonLeadingZero ip then none
      else some (PyVal.pnum (String.mk (sgn ++ ip)), cs2)
  /-- JSON forbids any extra digit after a leading zero. -/
  jsonLeadingZero (ip : List Char) : Bool :=
    match ip with
    | '0' :: _ :: _ => true
    | _ => false

/-- Python keyword literals `True` / `False` / `None`. -/
def parseKeywordPy (cs : List Char) : Option (PyVal × List Char) :=
  if cs.take 4 = "True".data then some (PyVal.pbool true, cs.drop 4)
  else if cs.take 5 = "False".data then some (PyVal.pbool false, cs.drop 5)
  else if cs.take 4 = "None".data then some (PyVal.pnone, cs.drop 4)
  else none

/-- JSON keyword literals `true` / `false` / `null`. -/
def parseKeywordJson (cs : List Char) : Option (PyVal × List Char) :=
  if cs.take 4 = "true".data then some (PyVal.pbool true, cs.drop 4)
  else if cs.take 5 = "false".data then some (PyVal.pbool false, cs.drop 5)
  else if cs.take 4 = "null".data then some (PyVal.pnone, cs.drop 4)
  else none

/-- Parse one scalar element (string, number, or keyword literal).
This is the fragment boundary: Python forms that are not flat scalars —
tuples, parenthesised literals, implicit string concatenation, raw,
byte and triple-quoted strings — are not in the fragment and fail
here. -/
def parseElem (py : Bool) (cs : List Char) : Option (PyVal × List Char) :=
  match cs with
  | [] => none
  | c :: rest =>
    if c = squote then
      if py then
        match parseStrBody py squote (rest.length + 1) rest with
        | some (body, after) => some (PyVal.pstr (String.mk body), after)
        | none => none
      else none
    else if c = dquote then
      match parseStrBody py dquote (rest.length + 1) rest with
      | some (body, after) => some (PyVal.pstr (String.mk body), after)
      | none => none
    else if c.isDigit || c = '-' || c = '+' || c = '.' then parseNumber py cs
    else if py then parseKeywordPy cs else parseKeywordJson cs

/-- Parse the element sequence of a list literal, the opening `[` already
consumed, up to and including the closing `]`; the whole input must be
consumed (trailing whitespace allowed).  `allowClose` is `false` exactly
when the previous token was a comma in JSON mode, where `]` may not
follow a comma; Python allows a trailing comma.  The fuel only bounds the
recursion depth: one unit per element, so `length + 1` always suffices. -/
def parseItems (py : Bool) (allowClose : Bool) : Nat → List Char → Option (List PyVal)
  | 0, _ => none
  | fuel + 1, cs =>
    match skipWs py cs with
    | ']' :: rest => if allowClose && isAllWs py rest then some [] else none
    | cs1 =>
      match parseElem py cs1 with
      | none => none
      | some (v, rest) =>
        match skipWs py rest with
        | ']' :: rest2 => if isAllWs py rest2 then some [v] else none
        | ',' :: rest2 =>
          match parseItems py py fuel rest2 with
          | some vs => some (v :: vs)
          | none => none
        | _ => none

/-- The executable fragment of `ast.literal_eval` (see the module
docstring): a whole-string Python literal, either a flat list of
scalars or a single scalar. -/
def literal_eval (s : String) : Option PyVal :=
  match skipWs true s.data with
  | '[' :: rest => (parseItems true true (rest.length + 1) rest).map PyVal.plist
  | cs =>
    match parseElem true cs with
    | some (v, rest) => if isAllWs true rest then some v else none
    | none => none

/-- The executable fragment of `json.loads`, same shape with JSON
lexical rules. -/
def json_loads (s : String) : Option PyVal :=
  match skipWs false s.data with
  | '[' :: rest => (parseItems false true (rest.length + 1) rest).map PyVal.plist
  | cs =>
    match parseElem false cs with
    | some (v, rest) => if isAllWs false rest then some v else none
    | none => none

/-! ## `extract_formulas` -/

/-- The code-fence prefixes removed by
`re.sub(r"```(?:python|text)?\n|```", "", text)`, in the order the regex
alternation prefers them. -/
def fencePython : List Char := [btick, btick, btick] ++ "python".data ++ ['\n']

def fenceText : List Char := [btick, btick, btick] ++ "text".data ++ ['\n']

def fenceNl : List Char := [btick, btick, btick, '\n']

def fence3 : List Char := [btick, btick, btick]

/-- One step of the fence-stripping scan; the fuel is one unit per input
character, so `length` always suffices (every removal consumes at least
one character). -/
def stripFencesF : Nat → List Char → List Char
  | 0, cs => cs
  | fuel + 1, cs =>
    match cs with
    | [] => []
    | c :: rest =>
      if c = btick then
        if cs.take 10 = fencePython then stripFencesF fuel (cs.drop 10)
        else if cs.take 8 = fenceText then stripFencesF fuel (cs.drop 8)
        else if cs.take 4 = fenceNl then stripFencesF fuel (cs.drop 4)
        else if cs.take 3 = fence3 then stripFencesF fuel (cs.drop 3)
        else c :: stripFencesF fuel rest
      else c :: stripFencesF fuel rest

/-- `re.sub(r"```(?:python|text)?\n|```", "", text)`: remove every code
fence marker, preferring the longer `(?:python|text)?\n` alternative at
each match position. -/
def stripFences (cs : List Char) : List Char := stripFencesF cs.length cs

/-- `re.search(r"\[.*?\]", text_clean, re.DOTALL)`: the substring from the
first `[` to the nearest following `]` (newlines included), if any. -/
def findBracket (cs : List Char) : Option (List Char) :=
  match cs.dropWhile (fun c => c ≠ '[') with
  | [] => none
  | _ :: rest =>
    if rest.any (fun c => c = ']') then
      some ('[' :: rest.takeWhile (fun c => c ≠ ']') ++ [']'])
    else none

/-- Python's `str.strip()`: remove leading and trailing Unicode
whitespace (the `str.isspace` set, `isPyStripWs`). -/
def pyStrip (s : String) : String :=
  String.mk (((s.data.dropWhile isPyStripWs).reverse.dropWhile isPyStripWs).reverse)

/-- Character class of the validation regex `[A-Za-z0-9()]`. -/
def isFormulaChar (c : Char) : Bool := c.isAlphanum || c = '(' || c = ')'

/-- `re.match(r"^[A-Za-z0-9()]+$", s)` on an already-stripped `s`: one or
more characters of the class, nothing else.  (`$` could also match before
a trailing newline, but `s` is always the output of `str.strip`.) -/
def isValidToken (s : String) : Bool := !s.data.isEmpty && s.data.all isFormulaChar

/-- The dedup loop: `seen` set plus output list, first occurrence wins. -/
def dedupeAux (seen : List String) : List String → List String
  | [] => []
  | v :: vs => if seen.contains v then dedupeAux seen vs else v :: dedupeAux (v :: seen) vs

def dedupeKeepFirst (l : List String) : List String := dedupeAux [] l

/-- The inner `try/except` pair around `ast.literal_eval` and
`json.loads` (as abstract parser functions): prefer the literal parse,
fall back to JSON. -/
def pyOrJson (litEval jsonLoads : String → Option PyVal) (cand : List Char) :
    Option PyVal :=
  match litEval (String.mk cand) with
  | some v => some v
  | none => jsonLoads (String.mk cand)

/-- The body of `extract_formulas`'s outer `try:`, parameterized over the
two library parsers; an `Except.error` result would correspond to an
exception reaching the outer `except` clause.  (No branch produces one —
which is what claim C6 asserts.) -/
def extract_formulasPE (litEval jsonLoads : String → Option PyVal) (text : String) :
    Except String (List String) :=
  if text.isEmpty then Except.ok []
  else
    let text_clean := stripFences text.data
    match findBracket text_clean with
    | some candidate =>
      match pyOrJson litEval jsonLoads candidate with
      | some (PyVal.plist items) =>
        let valid := items.filterMap (fun item =>
          match item with
          | PyVal.pstr s =>
            let t := pyStrip s
            if isValidToken t then some t else none
          | _ => none)
        Except.ok (dedupeKeepFirst valid)
      | _ => Except.ok []
    | none => Except.ok []

/-- `extract_formulas` parameterized over the two library parsers; the
outer `except` degrades any escaped exception to `[]`. -/
def extract_formulasP (litEval jsonLoads : String → Option PyVal) (text : String) :
    List String :=
  match extract_formulasPE litEval jsonLoads text with
  | Except.ok out => out
  | Except.error _ => []

/-- The `try:` body of `extract_formulas`, instantiated with the
fragment parsers. -/
def extract_formulasE (text : String) : Except String (List String) :=
  extract_formulasPE literal_eval json_loads text

/-- `extract_formulas`: parse and validate formulas from LLM output,
instantiated with the fragment parsers. -/
def extract_formulas (text : String) : List String :=
  match extract_formulasE text with
  | Except.ok out => out
  | Except.error _ => []

/-! ## Python `str()` of a list of simple strings

`str(material_list)` for a list of strings with no quotes, backslashes or
non-printable characters (e.g. any list of validated formula tokens):
`repr` renders each element between single quotes and the elements are
joined by `", "` between `[` and `]`. -/

/-- `listBody l` is the character sequence between the brackets. -/
def listBody : List String → List Char
  | [] => []
  | [s] => squote :: s.data ++ [squote]
  | s :: rest => squote :: s.data ++ [squote] ++ ',' :: ' ' :: listBody rest

/-- Python `str(l)` for a list of simple strings. -/
def pyStrOfList (l : List String) : String :=
  String.mk ('[' :: listBody l ++ [']'])

/-- Python `repr` of a simple string: the text between single quotes. -/
def pyRepr (s : String) : String :=
  String.mk (squote :: s.data ++ [squote])

/-! ## Provider call boundaries

The two generation and two evaluation functions call an external model
backend inside `try:` and degrade any raised exception to `[]` after an
`st.error` diagnostic.  The backend (client/SDK call plus response-field
access) is a parameter mapping the prompt text to either the raw response
text or a raised error. -/

/-- The user message sent by `generate_openai_formulas`. -/
def openai_generate_user_msg (user_prompt : String) : String :=
  "Suggest chemical formulas for: " ++ user_prompt

/-- The prompt built by `generate_gemini_formulas`. -/
def gemini_generate_prompt (user_prompt : String) : String :=
  "Suggest a Python list of 10 chemical formulas (e.g., [" ++ pyRepr "TiO2" ++ ", " ++
    pyRepr "ZnO" ++ ", ...]) for the following design goal:\n" ++ pyRepr user_prompt ++
    "\nReply ONLY with the list."

/-- The evaluation prompt built identically by `evaluate_openai_materials`
and `evaluate_gemini_materials`;  `f"{material_list}"` is `str(list)`. -/
def eval_prompt (material_list : List String) (user_prompt : String) : String :=
  "Given the following list of chemical formulas: " ++ pyStrOfList material_list ++
    "\nCheck each formula and return a Python list of only those that fully comply with this design goal: " ++
    pyRepr user_prompt ++ ".\nReply ONLY with the filtered list."

def generate_openai_formulas (user_prompt : String)
    (callModel : String → Except String String) : List String :=
  match callModel (openai_generate_user_msg user_prompt) with
  | Except.ok content => extract_formulas content
  | Except.error _ => []

def generate_gemini_formulas (user_prompt : String)
    (callModel : String → Except String String) : List String :=
  match callModel (gemini_generate_prompt user_prompt) with
  | Except.ok content => extract_formulas content
  | Except.error _ => []

def evaluate_openai_materials (material_list : List String) (user_prompt : String)
    (callModel : String → Except String String) : List String :=
  match callModel (eval_prompt material_list user_prompt) with
  | Except.ok content => extract_formulas content
  | Except.error _ => []

def evaluate_gemini_materials (material_list : List String) (user_prompt : String)
    (callModel : String → Except String String) : List String :=
  match callModel (eval_prompt material_list user_prompt) with
  | Except.ok content => extract_formulas content
  | Except.error _ => []

/-! ## Startup credential check

`os.getenv` yields `none` for an unset variable.  Python's truthiness on
the result: `not key` holds for `None` and for the empty string.  When any
of the three keys is falsy the app calls `st.error` and `st.stop()` —
modelled as `none` — before any of the three service clients is
constructed; otherwise the clients are built from the keys. -/

structure ServiceClients where
  openai_key : String
  gemini_key : String
  mp_key : String
deriving Repr, DecidableEq

/-- Python truthiness of an `os.getenv` result. -/
def pyTruthyStr (s : Option String) : Bool :=
  match s with
  | none => false
  | some t => !t.isEmpty

/-- Lines 41–49 of `Application.py`: key check, then client construction. -/
def startup (openaiKey geminiKey mpKey : Option String) : Option ServiceClients :=
  if !pyTruthyStr openaiKey || !pyTruthyStr geminiKey || !pyTruthyStr mpKey then
    none
  else
    some ⟨openaiKey.getD "", geminiKey.getD "", mpKey.getD ""⟩

/-! ## Materials Project records and ranking

A summary-search record.  Floats are modelled as `Rat`; a missing
`formation_energy_per_atom` attribute is `none` (`getattr(x, _, 9999)`
then substitutes the sentinel).  The opaque `structure` handle is not
inspected by any claim and is omitted. -/

structure MPRecord where
  material_id : String
  formula_pretty : String
  formation_energy_per_atom : Option Rat
  band_gap : Option Rat
  density : Option Rat
deriving Repr, DecidableEq

/-- The sort key `getattr(x, "formation_energy_per_atom", 9999)`. -/
def efKey (r : MPRecord) : Rat := r.formation_energy_per_atom.getD 9999

/-- Python's `sorted(_, key=efKey)`: a stable ascending sort, modelled by
insertion sort (which is stable: an element is inserted before the first
element of greater key, hence after all earlier equal-key elements). -/
def stableSortByEf (l : List MPRecord) : List MPRecord :=
  l.insertionSort (fun a b => efKey a ≤ efKey b)

/-- `query_mp_for_formula`: the network search either raises (caught:
`none`) or returns a record list; empty means `None`, otherwise the first
record of the stable sort by formation energy (`sorted(entries, key)[0]`). -/
def query_mp_for_formula (searchResult : Option (List MPRecord)) : Option MPRecord :=
  match searchResult with
  | none => none
  | some [] => none
  | some (e :: es) => (stableSortByEf (e :: es)).head?

/-- `find_best_material`: look each formula up (`query` is the memoized
`query_mp_for_formula` as a function of the formula), keep the hits
(record objects are truthy), sort by formation energy, return the top 3. -/
def find_best_material (formulas : List String) (query : String → Option MPRecord) :
    List MPRecord :=
  let candidates := formulas.filterMap query
  if candidates.isEmpty then [] else (stableSortByEf candidates).take 3

/-! ## Consensus filter -/

/-- Line 304: `[f for f in combined if f in openai_eval and f in gemini_eval]`. -/
def final_materials (combined openai_eval gemini_eval : List String) : List String :=
  combined.filter (fun f => openai_eval.contains f && gemini_eval.contains f)

/-! ## Base64 download links -/

def b64Alphabet : List Char :=
  "ABCDEFGHIJKLMNOPQRSTUVWXYZabcdefghijklmnopqrstuvwxyz0123456789+/".data

def b64Char (n : Nat) : Char := b64Alphabet.getD n '='

/-- Inverse lookup in the base64 alphabet. -/
def b64Val (c : Char) : Option Nat :=
  let i := b64Alphabet.indexOf c
  if i < 64 then some i else none

/-- Standard base64 encoding of a byte sequence, three bytes to four
characters with `=` padding (Python's `base64.b64encode`). -/
def b64EncodeChars : List Nat → List Char
  | [] => []
  | [b1] => [b64Char (b1 / 4), b64Char (b1 % 4 * 16), '=', '=']
  | [b1, b2] => [b64Char (b1 / 4), b64Char (b1 % 4 * 16 + b2 / 16), b64Char (b2 % 16 * 4), '=']
  | b1 :: b2 :: b3 :: rest =>
    b64Char (b1 / 4) :: b64Char (b1 % 4 * 16 + b2 / 16) ::
      b64Char (b2 % 16 * 4 + b3 / 64) :: b64Char (b3 % 64) :: b64EncodeChars rest

/-- Base64 decoding (four characters to three bytes, handling padding). -/
def b64DecodeChars : List Char → Option (List Nat)
  | [] => some []
  | c1 :: c2 :: c3 :: c4 :: rest =>
    (match b64Val c1, b64Val c2 with
     | some v1, some v2 =>
       if c3 = '=' then
         if c4 = '=' ∧ rest = [] then some [v1 * 4 + v2 / 16] else none
       else
         match b64Val c3 with
         | some v3 =>
           if c4 = '=' then
             if rest = [] then some [v1 * 4 + v2 / 16, v2 % 16 * 16 + v3 / 4] else none
           else
             match b64Val c4 with
             | some v4 =>
               match b64DecodeChars rest with
               | some bs =>
                 some ((v1 * 4 + v2 / 16) :: (v2 % 16 * 16 + v3 / 4) :: (v3 % 4 * 64 + v4) :: bs)
               | none => none
             | none => none
         | none => none
     | _, _ => none)
  | _ => none

def base64Encode (bs : List Nat) : String := String.mk (b64EncodeChars bs)

def base64Decode (s : String) : Option (List Nat) := b64DecodeChars s.data

/-- UTF-8 encoding of one unicode scalar value. -/
def utf8EncodeChar (c : Char) : List Nat :=
  let n := c.toNat
  if n < 128 then [n]
  else if n < 2048 then [192 + n / 64, 128 + n % 64]
  else if n < 65536 then [224 + n / 4096, 128 + n / 64 % 64, 128 + n % 64]
  else [240 + n / 262144, 128 + n / 4096 % 64, 128 + n / 64 % 64, 128 + n % 64]

/-- Python's `content.encode('utf-8')`. -/
def utf8Encode (s : String) : List Nat := (s.data.map utf8EncodeChar).flatten

/-- The `isinstance(content, str)` branch: a `str` is UTF-8 encoded,
`bytes` are used as-is. -/
def contentBytes (content : Sum (List Nat) String) : List Nat :=
  match content with
  | Sum.inl b => b
  | Sum.inr s => utf8Encode s

/-- `make_data_download_link`: an HTML anchor whose `href` is a base64
data URI of the content. -/
def make_data_download_link (content : Sum (List Nat) String) (filename : String)
    (mime : String) (label : String) : String :=
  let b := contentBytes content
  let b64 := base64Encode b
  let href := "data:" ++ mime ++ ";base64," ++ b64
  "<a href=\"" ++ href ++ "\" download=\"" ++ filename ++
    "\" style=\"text-decoration:none; background:#00c3ff; color:#001218; padding:8px 12px; border-radius:6px; font-weight:600;\">" ++
    label ++ "</a>"

/-! ## Claim C2 — consensus filter -/

/-- C2: For every candidate list C and approval lists A and B, the
consensus result is the subsequence of C, in C's order, consisting of
exactly those tokens that occur (by exact string membership) in both A
and B; when any of the inputs is empty the result is empty and no error
is raised. -/
theorem c2_consensus_intersection (C A B : List String) :
    (final_materials C A B).Sublist C
    ∧ (∀ x, x ∈ final_materials C A B ↔ (x ∈ C ∧ x ∈ A ∧ x ∈ B))
    ∧ (C = [] → final_materials C A B = [])
    ∧ (A = [] → final_materials C A B = [])
    ∧ (B = [] → final_materials C A B = []) := by
  refine ⟨List.filter_sublist C, ?_, ?_, ?_, ?_⟩
  · intro x
    simp [final_materials, List.mem_filter, List.elem_iff, and_assoc]
  · rintro rfl; rfl
  · rintro rfl; simp [final_materials]
  · rintro rfl; simp [final_materials]

/-- Witness for C2, on the worked example of spec §8:
`C = ["TiO2","ZnO","Fe2O3"]`, `A = ["TiO2","Fe2O3"]`, `B = ["TiO2","ZnO"]`. -/
theorem c2_consensus_intersection_witness :
    "TiO2" ∈ final_materials ["TiO2", "ZnO", "Fe2O3"] ["TiO2", "Fe2O3"] ["TiO2", "ZnO"] :=
  ((c2_consensus_intersection ["TiO2", "ZnO", "Fe2O3"] ["TiO2", "Fe2O3"]
      ["TiO2", "ZnO"]).2.1 "TiO2").2 ⟨by decide, by decide, by decide⟩

/-! ## Claim C6 — `extract_formulas` never raises -/

/-- The outer `try:` body never produces an exception, whatever the two
library parsers return: every branch of `extract_formulasPE` is an
`Except.ok`. -/
theorem extract_formulasPE_isOk (litEval jsonLoads : String → Option PyVal)
    (text : String) :
    ∃ out, extract_formulasPE litEval jsonLoads text = Except.ok out := by
  unfold extract_formulasPE
  by_cases he : text.isEmpty
  · simp [he]
  · cases hfb : findBracket (stripFences text.data) with
    | none => simp [he, hfb]
    | some cand =>
      cases hp : pyOrJson litEval jsonLoads cand with
      | none => simp [he, hfb, hp]
      | some v => cases v <;> simp [he, hfb, hp]

/-- The instantiated `try:` body never produces an exception. -/
theorem extract_formulasE_isOk (text : String) :
    ∃ out, extract_formulasE text = Except.ok out :=
  extract_formulasPE_isOk literal_eval json_loads text

/-- C6: `extract_formulas` never raises for any string input — including
the empty string, malformed brackets such as `"[unterminated"`, and text
whose bracketed substring is not parseable — every exception path
degrades to returning a list rather than propagating to the caller. -/
theorem c6_extract_total (text : String) :
    (∃ out, extract_formulasE text = Except.ok out)
    ∧ extract_formulas "" = [] ∧ extract_formulas "[unterminated" = [] :=
  ⟨extract_formulasE_isOk text, by decide, by decide⟩

/-! ## Claim C5 — no heuristic scraping -/

/-- C5: For every raw-text input that is empty, contains no bracketed
substring, or whose first bracketed substring fails both the
safe-literal-eval parse and the JSON-parse fallback (or parses to a
non-list value), the extractor returns the empty list, never a partial
or heuristically scraped set of tokens from the surrounding prose.  The
two library parsers are universally quantified function parameters, so
the failure condition is whatever `ast.literal_eval` and `json.loads`
actually reject; `extract_formulas` is the instantiation
`extract_formulasP literal_eval json_loads`. -/
theorem c5_no_list_empty (litEval jsonLoads : String → Option PyVal) (text : String)
    (h : text.isEmpty = true
      ∨ findBracket (stripFences text.data) = none
      ∨ (∃ cand, findBracket (stripFences text.data) = some cand ∧
          (pyOrJson litEval jsonLoads cand = none
            ∨ ∃ v, pyOrJson litEval jsonLoads cand = some v
              ∧ ∀ items, v ≠ PyVal.plist items))) :
    extract_formulasP litEval jsonLoads text = [] := by
  unfold extract_formulasP extract_formulasPE
  by_cases he : text.isEmpty
  · simp [he]
  · rcases h with h | h | ⟨cand, hc, h⟩
    · simp [h] at he
    · simp [he, h]
    · rcases h with h | ⟨v, hv, hnl⟩
      · simp [he, hc, h]
      · cases v with
        | plist items => exact absurd rfl (hnl items)
        | pstr s => simp [he, hc, hv]
        | pnum raw => simp [he, hc, hv]
        | pbool b => simp [he, hc, hv]
        | pnone => simp [he, hc, hv]
        | pother => simp [he, hc, hv]

/-- Witness for C5, on the worked example of spec §8: prose with no
bracketed list at all, under the fragment parsers (`extract_formulas`
itself is `extract_formulasP literal_eval json_loads`). -/
theorem c5_no_list_empty_witness :
    extract_formulasP literal_eval json_loads
      "Sure! Great formulas include TiO2 and ZnO." = [] :=
  c5_no_list_empty literal_eval json_loads
    "Sure! Great formulas include TiO2 and ZnO." (Or.inr (Or.inl (by decide)))

/-! ## Claim C9 — startup credential check -/

/-- C9: If any of the three required credentials (OpenAI, Gemini,
Materials Project) is absent at process start, the application reports an
error and halts (`st.stop`) before constructing any service client or
performing any pipeline work — modelled by `startup` returning `none`
without building a `ServiceClients`; with all three present (supplied and
non-empty, hence truthy), startup proceeds. -/
theorem c9_startup_credentials (k1 k2 k3 : Option String) :
    ((k1 = none ∨ k2 = none ∨ k3 = none) → startup k1 k2 k3 = none)
    ∧ ((pyTruthyStr k1 = true ∧ pyTruthyStr k2 = true ∧ pyTruthyStr k3 = true) →
        ∃ clients, startup k1 k2 k3 = some clients) := by
  constructor
  · rintro (rfl | rfl | rfl) <;> simp [startup, pyTruthyStr]
  · rintro ⟨h1, h2, h3⟩
    simp [startup, h1, h2, h3]

/-- Witness for C9: one missing key halts; three supplied keys proceed. -/
theorem c9_startup_credentials_witness :
    startup none (some "gk") (some "mk") = none
    ∧ ∃ clients, startup (some "ok") (some "gk") (some "mk") = some clients :=
  ⟨(c9_startup_credentials none (some "gk") (some "mk")).1 (Or.inl rfl),
    (c9_startup_credentials (some "ok") (some "gk") (some "mk")).2
      ⟨by decide, by decide, by decide⟩⟩

/-! ## Claim C8 — provider error boundary -/

/-- C8: For every user goal, if a model-provider call (generate or
evaluate) raises, the error is caught at the call site, a non-fatal
diagnostic is reported, and that provider contributes the empty candidate
list to its stage — the exception never propagates to abort the pipeline.
(On success the stage is the extraction of the returned raw text.) -/
theorem c8_provider_error_boundary (user_prompt : String)
    (callModel : String → Except String String) :
    (∀ e, callModel (openai_generate_user_msg user_prompt) = Except.error e →
      generate_openai_formulas user_prompt callModel = [])
    ∧ (∀ e, callModel (gemini_generate_prompt user_prompt) = Except.error e →
      generate_gemini_formulas user_prompt callModel = [])
    ∧ (∀ material_list e, callModel (eval_prompt material_list user_prompt) = Except.error e →
      evaluate_openai_materials material_list user_prompt callModel = []
        ∧ evaluate_gemini_materials material_list user_prompt callModel = [])
    ∧ (∀ raw, callModel (openai_generate_user_msg user_prompt) = Except.ok raw →
      generate_openai_formulas user_prompt callModel = extract_formulas raw)
    ∧ (∀ raw, callModel (gemini_generate_prompt user_prompt) = Except.ok raw →
      generate_gemini_formulas user_prompt callModel = extract_formulas raw) := by
  refine ⟨?_, ?_, ?_, ?_, ?_⟩
  · intro e h; simp [generate_openai_formulas, h]
  · intro e h; simp [generate_gemini_formulas, h]
  · intro ml e h
    exact ⟨by simp [evaluate_openai_materials, h], by simp [evaluate_gemini_materials, h]⟩
  · intro raw h; simp [generate_openai_formulas, h]
  · intro raw h; simp [generate_gemini_formulas, h]

/-- Witness for C8: a backend that always raises contributes `[]` to both
stages. -/
theorem c8_provider_error_boundary_witness :
    generate_openai_formulas "transparent conductor" (fun _ => Except.error "boom") = []
    ∧ evaluate_openai_materials ["ZnO"] "transparent conductor"
        (fun _ => Except.error "boom") = [] :=
  ⟨(c8_provider_error_boundary "transparent conductor" (fun _ => Except.error "boom")).1
      "boom" rfl,
    ((c8_provider_error_boundary "transparent conductor" (fun _ => Except.error "boom")).2.2.1
      ["ZnO"] "boom" rfl).1⟩

/-! ## Claim C1 — extraction from a well-formed list -/

/-- The claim's own description of the result (spec §4.1 steps 6–7): from
the parsed list take the string elements, trim each, keep the trimmed
forms that fully match the token pattern, and deduplicate by exact string
equality keeping the first occurrence, order preserved. -/
def claimC1Result (items : List PyVal) : List String :=
  dedupeKeepFirst (((items.filterMap (fun v =>
    match v with
    | PyVal.pstr s => some s
    | _ => none)).map pyStrip).filter isValidToken)

/-- The validation loop of `extract_formulas` computes exactly the claim's
take-strings / trim / filter pipeline. -/
theorem filterMap_validate_eq (items : List PyVal) :
    items.filterMap (fun item =>
      match item with
      | PyVal.pstr s =>
        let t := pyStrip s
        if isValidToken t then some t else none
      | _ => none) =
    ((items.filterMap (fun v =>
      match v with
      | PyVal.pstr s => some s
      | _ => none)).map pyStrip).filter isValidToken := by
  induction items with
  | nil => rfl
  | cons v rest ih =>
    cases v with
    | pstr s =>
      by_cases hv : isValidToken (pyStrip s)
      · simp [List.filterMap_cons, hv, ih]
      · simp [List.filterMap_cons, hv, ih]
    | pnum raw => simp [List.filterMap_cons, ih]
    | pbool b => simp [List.filterMap_cons, ih]
    | pnone => simp [List.filterMap_cons, ih]
    | plist l => simp [List.filterMap_cons, ih]
    | pother => simp [List.filterMap_cons, ih]

/-- C1: For every raw-text input in which the first bracketed substring
(from the first `[` to the nearest following `]`, after stripping code
fences) parses as a list via safe literal eval or, failing that, JSON,
the extractor returns exactly the subsequence of that list's string
elements whose whitespace-trimmed form fully matches `^[A-Za-z0-9()]+$`,
deduplicated by exact string equality keeping the first occurrence, with
the original list order preserved.  The two library parsers are
universally quantified function parameters, so the hypothesis is
satisfied by whatever list `ast.literal_eval` (or, on its failure,
`json.loads`) actually produces; `extract_formulas` is the
instantiation `extract_formulasP literal_eval json_loads`. -/
theorem c1_extract_wellformed_list (litEval jsonLoads : String → Option PyVal)
    (text : String) (items : List PyVal)
    (hp : (findBracket (stripFences text.data)).bind (pyOrJson litEval jsonLoads)
      = some (PyVal.plist items)) :
    extract_formulasP litEval jsonLoads text = claimC1Result items := by
  have hne : ¬ text.isEmpty = true := by
    intro he
    have hdata : text.data = [] := by
      have : text = "" := (String.isEmpty_iff text).mp he
      simp [this]
    rw [hdata] at hp
    simp [stripFences, stripFencesF, findBracket] at hp
  cases hfb : findBracket (stripFences text.data) with
  | none => rw [hfb] at hp; simp at hp
  | some cand =>
    rw [hfb] at hp
    simp only [Option.some_bind] at hp
    unfold extract_formulasP extract_formulasPE
    simp [hne, hfb, hp, claimC1Result, filterMap_validate_eq]

/-- Witness for C1, instantiated with the fragment parsers: prose around
a list literal with a duplicate and a token containing a space; the
result keeps `TiO2` (once) and `ZnO`. -/
theorem c1_extract_wellformed_list_witness :
    extract_formulasP literal_eval json_loads
        "noise [\"TiO2\", \"TiO2\", \"Zn O\", \"ZnO\"] done" =
      claimC1Result
        [PyVal.pstr "TiO2", PyVal.pstr "TiO2", PyVal.pstr "Zn O", PyVal.pstr "ZnO"] :=
  c1_extract_wellformed_list literal_eval json_loads
    "noise [\"TiO2\", \"TiO2\", \"Zn O\", \"ZnO\"] done"
    [PyVal.pstr "TiO2", PyVal.pstr "TiO2", PyVal.pstr "Zn O", PyVal.pstr "ZnO"] (by rfl)

/-! ## Claims C3 / C4 — ranking by formation energy -/

/-- The stable sort is sorted ascending by the sentinel key. -/
theorem stableSortByEf_sorted (l : List MPRecord) :
    List.Sorted (fun a b => efKey a ≤ efKey b) (stableSortByEf l) := by
  haveI : IsTotal MPRecord (fun a b => efKey a ≤ efKey b) := ⟨fun a b => le_total _ _⟩
  haveI : IsTrans MPRecord (fun a b => efKey a ≤ efKey b) := ⟨fun a b c => le_trans⟩
  exact List.sorted_insertionSort _ l

/-- The stable sort is a permutation of its input. -/
theorem stableSortByEf_perm (l : List MPRecord) : (stableSortByEf l).Perm l :=
  List.perm_insertionSort _ l

/-- Inserting `a` passes only over strictly smaller keys, so the
equal-key subsequence gains `a` at its front iff `a` has that key. -/
theorem orderedInsert_filter_key (a : MPRecord) (l : List MPRecord) (k : Rat) :
    (List.orderedInsert (fun x y => efKey x ≤ efKey y) a l).filter (fun r => efKey r == k) =
      if efKey a == k then a :: l.filter (fun r => efKey r == k)
      else l.filter (fun r => efKey r == k) := by
  induction l with
  | nil =>
    by_cases ha : efKey a == k <;> simp [List.orderedInsert, List.filter, ha]
  | cons b t ih =>
    by_cases hab : efKey a ≤ efKey b
    · rw [List.orderedInsert, if_pos hab]
      by_cases ha : efKey a == k <;> simp [List.filter, ha]
    · rw [List.orderedInsert, if_neg hab]
      by_cases ha : efKey a == k
      · have hak : efKey a = k := beq_iff_eq.mp ha
        have hbk : ¬ (efKey b == k) = true := by
          have hlt : efKey b < efKey a := not_le.mp hab
          simp only [beq_iff_eq]
          intro hbe
          rw [hbe, hak] at hlt
          exact lt_irrefl _ hlt
        simp [List.filter_cons, hbk, ih, ha]
      · simp [List.filter_cons, ih, ha]

/-- Stability of `stableSortByEf`: for every key value, the subsequence of
records with that key is unchanged — ties keep their input order. -/
theorem stableSortByEf_stable (l : List MPRecord) (k : Rat) :
    (stableSortByEf l).filter (fun r => efKey r == k) = l.filter (fun r => efKey r == k) := by
  induction l with
  | nil => rfl
  | cons a t ih =>
    show (List.orderedInsert _ a (stableSortByEf t)).filter _ = _
    rw [orderedInsert_filter_key]
    by_cases ha : efKey a == k <;> simp [ha, ih, List.filter_cons]

/-- C3: For every list of formulas, `find_best_material` excludes
formulas whose lookup returned no record, sorts the retained records
ascending by formation-energy-per-atom using 9999 as the key for a record
missing that field, breaks ties by input order (stable sort: the
equal-key subsequences are preserved), and returns at most the first 3
records; when no formula yields a record it returns the empty list rather
than raising. -/
theorem c3_ranking_top3 (formulas : List String) (query : String → Option MPRecord) :
    find_best_material formulas query = (stableSortByEf (formulas.filterMap query)).take 3
    ∧ List.Sorted (fun a b => efKey a ≤ efKey b) (stableSortByEf (formulas.filterMap query))
    ∧ (stableSortByEf (formulas.filterMap query)).Perm (formulas.filterMap query)
    ∧ (∀ k : Rat, (stableSortByEf (formulas.filterMap query)).filter (fun r => efKey r == k)
        = (formulas.filterMap query).filter (fun r => efKey r == k))
    ∧ (find_best_material formulas query).length ≤ 3
    ∧ ((∀ f ∈ formulas, query f = none) → find_best_material formulas query = []) := by
  have h1 : find_best_material formulas query
      = (stableSortByEf (formulas.filterMap query)).take 3 := by
    unfold find_best_material
    by_cases he : (formulas.filterMap query).isEmpty
    · have : formulas.filterMap query = [] := List.isEmpty_iff.mp he
      simp [he, this, stableSortByEf]
    · simp [he]
  refine ⟨h1, stableSortByEf_sorted _, stableSortByEf_perm _,
    fun k => stableSortByEf_stable _ k, ?_, ?_⟩
  · rw [h1]; exact List.length_take_le _ _
  · intro hnone
    have : formulas.filterMap query = [] := by
      rw [List.filterMap_eq_nil_iff]
      exact hnone
    rw [h1, this]
    rfl

/-- Witness for C3: when every lookup misses, the result is `[]`. -/
theorem c3_ranking_top3_witness : find_best_material ["NaCl3"] (fun _ => none) = [] :=
  (c3_ranking_top3 ["NaCl3"] (fun _ => none)).2.2.2.2.2 (fun _ _ => rfl)

/-- A record whose formation energy is a real value above the sentinel. -/
def mpHighEnergyRec : MPRecord := ⟨"mp-1", "HighE", some 10000, some 0, some 0⟩

/-- A record missing the formation-energy field. -/
def mpMissingEfRec : MPRecord := ⟨"mp-2", "NoEf", none, some 0, some 0⟩

/-- Counterexample to C4 as stated: a record missing
`formation_energy_per_atom` (sentinel key 9999) IS selected as best over
a record with the real value 10000, because 9999 only deprioritizes
missing-field records below real values smaller than the sentinel. -/
theorem c4_counterexample_sentinel :
    query_mp_for_formula (some [mpHighEnergyRec, mpMissingEfRec]) = some mpMissingEfRec
    ∧ mpMissingEfRec.formation_energy_per_atom = none
    ∧ mpHighEnergyRec.formation_energy_per_atom = some 10000 := by
  refine ⟨?_, rfl, rfl⟩
  decide

/-- C4 (amended): For every formula whose database lookup returns one or
more records, `query_mp_for_formula` returns a record with the lowest
formation-energy-per-atom among them, treating a record missing that
field as having the sentinel value 9999 — so such records are
deprioritized and are never selected as best over a record with a real
value strictly below 9999 (though a real value of 9999 or more can lose
to them); when the lookup returns no entries or fails it returns
absent. -/
theorem c4_best_record_amended (entries : List MPRecord) (h : entries ≠ []) :
    (∃ r, query_mp_for_formula (some entries) = some r ∧ r ∈ entries
      ∧ (∀ x ∈ entries, efKey r ≤ efKey x)
      ∧ ((∃ x ∈ entries, ∃ v, x.formation_energy_per_atom = some v ∧ v < 9999) →
          r.formation_energy_per_atom ≠ none))
    ∧ query_mp_for_formula none = none
    ∧ query_mp_for_formula (some []) = none := by
  refine ⟨?_, rfl, rfl⟩
  cases entries with
  | nil => exact absurd rfl h
  | cons e es =>
    have hperm := stableSortByEf_perm (e :: es)
    have hsort := stableSortByEf_sorted (e :: es)
    cases hs : stableSortByEf (e :: es) with
    | nil =>
      rw [hs] at hperm
      simpa using hperm.length_eq
    | cons r tl =>
      rw [hs] at hperm hsort
      have hmin : ∀ x ∈ e :: es, efKey r ≤ efKey x := by
        intro x hx
        have hxs : x ∈ r :: tl := hperm.mem_iff.mpr hx
        rcases List.mem_cons.mp hxs with rfl | hxt
        · exact le_refl _
        · exact List.rel_of_sorted_cons hsort x hxt
      refine ⟨r, ?_, ?_, hmin, ?_⟩
      · show (stableSortByEf (e :: es)).head? = some r
        rw [hs]
        rfl
      · exact hperm.subset (List.mem_cons_self r tl)
      · rintro ⟨x, hx, v, hv, hlt⟩ hrnone
        have h1 : efKey r ≤ efKey x := hmin x hx
        have h2 : efKey x = v := by simp [efKey, hv]
        have h3 : efKey r = 9999 := by simp [efKey, hrnone]
        rw [h3, h2] at h1
        exact lt_irrefl _ (lt_of_le_of_lt h1 hlt)

/-- Witness for C4 (amended), on a one-record lookup result. -/
theorem c4_best_record_amended_witness :
    ∃ r, query_mp_for_formula (some [mpMissingEfRec]) = some r ∧ r ∈ [mpMissingEfRec]
      ∧ (∀ x ∈ [mpMissingEfRec], efKey r ≤ efKey x)
      ∧ ((∃ x ∈ [mpMissingEfRec], ∃ v, x.formation_energy_per_atom = some v ∧ v < 9999) →
          r.formation_energy_per_atom ≠ none) :=
  (c4_best_record_amended [mpMissingEfRec] (by decide)).1

/-! ## Claim C10 — base64 download-link round trip -/

/-- The alphabet lookup inverts encoding on every 6-bit value. -/
theorem b64Val_b64Char : ∀ n < 64, b64Val (b64Char n) = some n := by decide

/-- No 6-bit value encodes to the padding character. -/
theorem b64Char_ne_pad : ∀ n < 64, b64Char n ≠ '=' := by decide

/-- Base64 decoding inverts encoding on every byte sequence. -/
theorem b64_roundtrip : ∀ (bs : List Nat), (∀ b ∈ bs, b < 256) →
    b64DecodeChars (b64EncodeChars bs) = some bs
  | [], _ => rfl
  | [b1], h => by
    have hb1 : b1 < 256 := h b1 (by simp)
    have h1 := b64Val_b64Char (b1 / 4) (by omega)
    have h2 := b64Val_b64Char (b1 % 4 * 16) (by omega)
    simp only [b64EncodeChars, b64DecodeChars, h1, h2]
    simp
    omega
  | [b1, b2], h => by
    have hb1 : b1 < 256 := h b1 (by simp)
    have hb2 : b2 < 256 := h b2 (by simp)
    have h1 := b64Val_b64Char (b1 / 4) (by omega)
    have h2 := b64Val_b64Char (b1 % 4 * 16 + b2 / 16) (by omega)
    have h3 := b64Val_b64Char (b2 % 16 * 4) (by omega)
    have h3n := b64Char_ne_pad (b2 % 16 * 4) (by omega)
    simp only [b64EncodeChars, b64DecodeChars, h1, h2, h3, h3n]
    simp [h3n]
    omega
  | b1 :: b2 :: b3 :: rest, h => by
    have hb1 : b1 < 256 := h b1 (by simp)
    have hb2 : b2 < 256 := h b2 (by simp)
    have hb3 : b3 < 256 := h b3 (by simp)
    have h1 := b64Val_b64Char (b1 / 4) (by omega)
    have h2 := b64Val_b64Char (b1 % 4 * 16 + b2 / 16) (by omega)
    have h3 := b64Val_b64Char (b2 % 16 * 4 + b3 / 64) (by omega)
    have h4 := b64Val_b64Char (b3 % 64) (by omega)
    have h3n := b64Char_ne_pad (b2 % 16 * 4 + b3 / 64) (by omega)
    have h4n := b64Char_ne_pad (b3 % 64) (by omega)
    have ih := b64_roundtrip rest (fun b hb => h b (by simp [hb]))
    simp only [b64EncodeChars, b64DecodeChars, h1, h2, h3, h4, ih]
    simp [h3n, h4n]
    omega

/-- Every unicode scalar value is below `0x110000`. -/
theorem char_toNat_lt (c : Char) : c.toNat < 1114112 := by
  have h := c.valid
  unfold UInt32.isValidChar Nat.isValidChar at h
  show c.val.toNat < 1114112
  rcases h with h | ⟨h1, h2⟩ <;> omega

/-- UTF-8 encoding produces bytes. -/
theorem utf8EncodeChar_lt (c : Char) : ∀ b ∈ utf8EncodeChar c, b < 256 := by
  have hv := char_toNat_lt c
  intro b hb
  by_cases h1 : c.toNat < 128
  · simp only [utf8EncodeChar, if_pos h1] at hb
    fin_cases hb
    omega
  · by_cases h2 : c.toNat < 2048
    · simp only [utf8EncodeChar, if_neg h1, if_pos h2] at hb
      fin_cases hb <;> omega
    · by_cases h3 : c.toNat < 65536
      · simp only [utf8EncodeChar, if_neg h1, if_neg h2, if_pos h3] at hb
        fin_cases hb <;> omega
      · simp only [utf8EncodeChar, if_neg h1, if_neg h2, if_neg h3] at hb
        fin_cases hb <;> omega

theorem utf8Encode_lt (s : String) : ∀ b ∈ utf8Encode s, b < 256 := by
  intro b hb
  unfold utf8Encode at hb
  simp only [List.mem_flatten, List.mem_map] at hb
  obtain ⟨l, ⟨c, _, rfl⟩, hbl⟩ := hb
  exact utf8EncodeChar_lt c b hbl

/-- C10: For every content (string or bytes) and filename, the anchor tag
returned by `make_data_download_link` embeds a base64 data URI whose
decoded payload equals exactly the UTF-8 encoding of a string content (or
the bytes themselves for bytes content): base64-decoding the href
round-trips the original content without loss.  (The byte-range
hypothesis is the `bytes` invariant; for string content it is provable,
see `utf8Encode_lt`.) -/
theorem c10_download_link_roundtrip (content : Sum (List Nat) String)
    (filename mime label : String)
    (h : ∀ b ∈ contentBytes content, b < 256) :
    make_data_download_link content filename mime label =
      "<a href=\"" ++ ("data:" ++ mime ++ ";base64," ++ base64Encode (contentBytes content)) ++
        "\" download=\"" ++ filename ++
        "\" style=\"text-decoration:none; background:#00c3ff; color:#001218; padding:8px 12px; border-radius:6px; font-weight:600;\">" ++
        label ++ "</a>"
    ∧ base64Decode (base64Encode (contentBytes content)) = some (contentBytes content) := by
  refine ⟨rfl, ?_⟩
  show b64DecodeChars (String.mk (b64EncodeChars (contentBytes content))).data
    = some (contentBytes content)
  exact b64_roundtrip _ h

/-- Witness for C10 on the string content `"hi"`. -/
theorem c10_download_link_roundtrip_witness :
    base64Decode (base64Encode (contentBytes (Sum.inr "hi")))
      = some (contentBytes (Sum.inr "hi")) :=
  (c10_download_link_roundtrip (Sum.inr "hi") "f.txt" "text/plain" "Download" (by decide)).2

/-! ## Claim C7 — round trip of `extract` through Python `str()`

The development below shows the round-trip equation holds for EVERY
input, refuting the claim's existential.  Outline: every output of
`extract_formulas` is a `Nodup` list of valid tokens
(`extract_formulas_valid`); `str()` of such a list re-parses to the very
same list (`extract_pyStr_of_valid`). -/

theorem dedupeAux_mem (seen : List String) (l : List String) :
    ∀ x ∈ dedupeAux seen l, x ∈ l := by
  induction l generalizing seen with
  | nil => intro x hx; exact absurd hx (by simp [dedupeAux])
  | cons v vs ih =>
    intro x hx
    unfold dedupeAux at hx
    by_cases hv : seen.contains v
    · rw [if_pos hv] at hx
      exact List.mem_cons_of_mem v (ih seen x hx)
    · rw [if_neg hv] at hx
      rcases List.mem_cons.mp hx with rfl | hx'
      · exact List.mem_cons_self x vs
      · exact List.mem_cons_of_mem v (ih (v :: seen) x hx')

theorem dedupeAux_not_mem_seen (seen : List String) (l : List String) :
    ∀ x ∈ dedupeAux seen l, ¬ seen.contains x = true := by
  induction l generalizing seen with
  | nil => intro x hx; exact absurd hx (by simp [dedupeAux])
  | cons v vs ih =>
    intro x hx
    unfold dedupeAux at hx
    by_cases hv : seen.contains v
    · rw [if_pos hv] at hx
      exact ih seen x hx
    · rw [if_neg hv] at hx
      rcases List.mem_cons.mp hx with rfl | hx'
      · exact hv
      · intro hxs
        apply ih (v :: seen) x hx'
        simp [List.contains_cons]
        exact Or.inr (List.elem_iff.mp hxs)

theorem dedupeAux_nodup (seen : List String) (l : List String) :
    (dedupeAux seen l).Nodup := by
  induction l generalizing seen with
  | nil => simp [dedupeAux]
  | cons v vs ih =>
    unfold dedupeAux
    by_cases hv : seen.contains v
    · rw [if_pos hv]; exact ih seen
    · rw [if_neg hv]
      refine List.nodup_cons.mpr ⟨?_, ih (v :: seen)⟩
      intro hmem
      exact dedupeAux_not_mem_seen (v :: seen) vs v hmem (by simp [List.contains_cons])

theorem dedupeAux_eq_self (seen : List String) (l : List String)
    (hs : ∀ x ∈ l, ¬ seen.contains x = true) (hn : l.Nodup) : dedupeAux seen l = l := by
  induction l generalizing seen with
  | nil => rfl
  | cons v vs ih =>
    unfold dedupeAux
    rw [if_neg (hs v (List.mem_cons_self v vs))]
    congr 1
    refine ih (v :: seen) ?_ (List.nodup_cons.mp hn).2
    intro x hx
    have hxv : x ≠ v := by
      rintro rfl
      exact (List.nodup_cons.mp hn).1 hx
    have hxs := hs x (List.mem_cons_of_mem v hx)
    intro hcont
    rcases (by simpa using hcont : x = v ∨ x ∈ seen) with rfl | hmem
    · exact hxv rfl
    · exact hxs (List.elem_iff.mpr hmem)

theorem dedupeKeepFirst_mem (l : List String) : ∀ x ∈ dedupeKeepFirst l, x ∈ l :=
  dedupeAux_mem [] l

theorem dedupeKeepFirst_nodup (l : List String) : (dedupeKeepFirst l).Nodup :=
  dedupeAux_nodup [] l

theorem dedupeKeepFirst_eq_self (l : List String) (hn : l.Nodup) : dedupeKeepFirst l = l :=
  dedupeAux_eq_self [] l (by simp) hn

theorem isFormulaChar_toNat (c : Char) (h : isFormulaChar c = true) :
    c.toNat = 40 ∨ c.toNat = 41 ∨ (48 ≤ c.toNat ∧ c.toNat ≤ 57)
      ∨ (65 ≤ c.toNat ∧ c.toNat ≤ 90) ∨ (97 ≤ c.toNat ∧ c.toNat ≤ 122) := by
  unfold isFormulaChar Char.isAlphanum Char.isAlpha Char.isUpper Char.isLower Char.isDigit at h
  simp only [Bool.or_eq_true, Bool.and_eq_true, decide_eq_true_eq] at h
  rcases h with (((⟨h1, h2⟩ | ⟨h1, h2⟩) | ⟨h1, h2⟩) | h) | h
  · have h1' : 65 ≤ c.val.toNat := h1
    have h2' : c.val.toNat ≤ 90 := h2
    right; right; right; left; exact ⟨h1', h2'⟩
  · have h1' : 97 ≤ c.val.toNat := h1
    have h2' : c.val.toNat ≤ 122 := h2
    right; right; right; right; exact ⟨h1', h2'⟩
  · have h1' : 48 ≤ c.val.toNat := h1
    have h2' : c.val.toNat ≤ 57 := h2
    right; right; left; exact ⟨h1', h2'⟩
  · subst h; left; rfl
  · subst h; right; left; rfl

theorem formulaChar_props (c : Char) (h : isFormulaChar c = true) :
    c ≠ btick ∧ c ≠ '[' ∧ c ≠ ']' ∧ c ≠ squote ∧ c ≠ bslash
      ∧ isPyStripWs c = false ∧ plainStrChar true c = true := by
  have ht := isFormulaChar_toNat c h
  have hne : ∀ (d : Char) (n : Nat), d.toNat = n → c.toNat ≠ n → c ≠ d := by
    intro d n hd hn he
    exact hn (he ▸ hd)
  have h10 : c ≠ '\n' := hne '\n' 10 (by decide) (by omega)
  have h13 : c ≠ '\r' := hne '\r' 13 (by decide) (by omega)
  refine ⟨hne btick 96 (by decide) (by omega),
    hne '[' 91 (by decide) (by omega),
    hne ']' 93 (by decide) (by omega),
    hne squote 39 (by decide) (by omega),
    hne bslash 92 (by decide) (by omega), ?_, ?_⟩
  · refine Bool.eq_false_iff.mpr ?_
    intro hw
    simp only [isPyStripWs, Bool.or_eq_true, Bool.and_eq_true, decide_eq_true_eq] at hw
    omega
  · simp [plainStrChar, h10, h13]

theorem validToken_chars (s : String) (h : isValidToken s = true) :
    s.data ≠ [] ∧ ∀ c ∈ s.data, isFormulaChar c = true := by
  unfold isValidToken at h
  simp only [Bool.and_eq_true, Bool.not_eq_true'] at h
  obtain ⟨h1, h2⟩ := h
  refine ⟨?_, ?_⟩
  · intro hd
    rw [hd] at h1
    simp at h1
  · intro c hc
    exact List.all_eq_true.mp h2 c hc

theorem validate_filterMap_valid (items : List PyVal) :
    ∀ s ∈ items.filterMap (fun item =>
      match item with
      | PyVal.pstr s0 =>
        let t := pyStrip s0
        if isValidToken t then some t else none
      | _ => none), isValidToken s = true := by
  intro s hs
  rw [List.mem_filterMap] at hs
  obtain ⟨item, _, hitem⟩ := hs
  cases item with
  | pstr s0 =>
    simp only at hitem
    by_cases hv : isValidToken (pyStrip s0)
    · rw [if_pos hv] at hitem
      cases hitem
      exact hv
    · rw [if_neg hv] at hitem
      cases hitem
  | pnum raw => cases hitem
  | pbool b => cases hitem
  | pnone => cases hitem
  | plist l => cases hitem
  | pother => cases hitem

theorem extract_formulas_valid (x : String) :
    (∀ s ∈ extract_formulas x, isValidToken s = true) ∧ (extract_formulas x).Nodup := by
  unfold extract_formulas extract_formulasE extract_formulasPE
  by_cases he : x.isEmpty
  · simp [he]
  · cases hfb : findBracket (stripFences x.data) with
    | none => simp [he, hfb]
    | some cand =>
      cases hp : pyOrJson literal_eval json_loads cand with
      | none => simp [he, hfb, hp]
      | some v =>
        cases v with
        | plist items =>
          simp only [he, hfb, hp, Bool.false_eq_true, if_false]
          constructor
          · intro s hs
            exact validate_filterMap_valid items s (dedupeKeepFirst_mem _ s hs)
          · exact dedupeKeepFirst_nodup _
        | pstr s0 => simp [he, hfb, hp]
        | pnum raw => simp [he, hfb, hp]
        | pbool b => simp [he, hfb, hp]
        | pnone => simp [he, hfb, hp]
        | pother => simp [he, hfb, hp]

theorem stripFencesF_no_btick : ∀ (f : Nat) (cs : List Char),
    (∀ c ∈ cs, c ≠ btick) → stripFencesF f cs = cs
  | 0, _, _ => rfl
  | _ + 1, [], _ => rfl
  | f + 1, c :: rest, h => by
    simp only [stripFencesF]
    rw [if_neg (h c (List.mem_cons_self c rest))]
    rw [stripFencesF_no_btick f rest (fun d hd => h d (List.mem_cons_of_mem c hd))]

theorem stripFences_no_btick (cs : List Char) (h : ∀ c ∈ cs, c ≠ btick) :
    stripFences cs = cs :=
  stripFencesF_no_btick cs.length cs h

theorem skipWs_cons_not_ws (py : Bool) (c : Char) (cs : List Char)
    (hc : tokWs py c = false) : skipWs py (c :: cs) = c :: cs := by
  simp [skipWs, List.dropWhile_cons, hc]

theorem tw_until (body : List Char) (hb : ∀ c ∈ body, c ≠ ']') :
    (body ++ [']']).takeWhile (fun c => c ≠ ']') = body := by
  induction body with
  | nil => simp [List.takeWhile_cons]
  | cons a t ih =>
    have ha : a ≠ ']' := hb a (List.mem_cons_self a t)
    rw [List.cons_append, List.takeWhile_cons, ih (fun c hc => hb c (List.mem_cons_of_mem a hc))]
    simp [ha]

theorem findBracket_whole (body : List Char) (hb : ∀ c ∈ body, c ≠ '[' ∧ c ≠ ']') :
    findBracket ('[' :: body ++ [']']) = some ('[' :: body ++ [']']) := by
  unfold findBracket
  rw [List.cons_append, List.dropWhile_cons, if_neg (by decide)]
  dsimp only
  have h2 : (body ++ [']']).any (fun c => c = ']') = true := by simp
  rw [if_pos h2, tw_until body (fun c hc => (hb c hc).2), List.cons_append]

theorem parseStrBody_plain : ∀ (t rest : List Char) (f : Nat),
    (∀ c ∈ t, isFormulaChar c = true) → t.length < f →
    parseStrBody true squote f (t ++ squote :: rest) = some (t, rest)
  | t, _, 0, _, hf => absurd hf (by omega)
  | [], rest, f + 1, _, _ => by
    rw [List.nil_append]
    simp [parseStrBody]
  | c :: t, rest, f + 1, h, hf => by
    have hc := formulaChar_props c (h c (List.mem_cons_self c t))
    rw [List.cons_append]
    simp only [parseStrBody]
    rw [if_neg hc.2.2.2.1, if_neg hc.2.2.2.2.1, hc.2.2.2.2.2.2, if_pos rfl,
      parseStrBody_plain t rest f (fun d hd => h d (List.mem_cons_of_mem c hd))
        (by simpa using Nat.lt_of_succ_lt_succ hf)]

theorem string_mk_data : ∀ (s : String), String.mk s.data = s
  | ⟨_⟩ => rfl

theorem parseElem_token (t rest : List Char) (h : ∀ c ∈ t, isFormulaChar c = true) :
    parseElem true (squote :: (t ++ squote :: rest)) = some (PyVal.pstr (String.mk t), rest) := by
  have step : parseElem true (squote :: (t ++ squote :: rest)) =
      (match parseStrBody true squote ((t ++ squote :: rest).length + 1)
          (t ++ squote :: rest) with
      | some (body, after) => some (PyVal.pstr (String.mk body), after)
      | none => none) := rfl
  rw [step, parseStrBody_plain t rest _ h
    (by simp only [List.length_append, List.length_cons]; omega)]

theorem parseItems_ws (py ac : Bool) (f : Nat) (cs : List Char) :
    parseItems py ac (f + 1) (' ' :: cs) = parseItems py ac (f + 1) cs := by
  simp only [parseItems]
  rw [show skipWs py (' ' :: cs) = skipWs py cs from by
    have hws : tokWs py ' ' = true := by cases py <;> decide
    simp [skipWs, List.dropWhile_cons, hws]]

theorem parseItems_listBody : ∀ (l : List String) (f : Nat),
    (∀ s ∈ l, isValidToken s = true) → l.length + 1 ≤ f →
    parseItems true true f (listBody l ++ [']']) = some (l.map PyVal.pstr)
  | [], f + 1, _, _ => rfl
  | [s], f + 1, h, _ => by
    have hchars := (validToken_chars s (h s (by simp))).2
    have hshape : listBody [s] ++ [']'] = squote :: (s.data ++ squote :: [']']) := by
      simp [listBody]
    rw [hshape]
    have step : parseItems true true (f + 1) (squote :: (s.data ++ squote :: [']'])) =
        (match parseElem true (squote :: (s.data ++ squote :: [']'])) with
        | none => none
        | some (v, rest) =>
          match skipWs true rest with
          | ']' :: rest2 => if isAllWs true rest2 then some [v] else none
          | ',' :: rest2 =>
            match parseItems true true f rest2 with
            | some vs => some (v :: vs)
            | none => none
          | _ => none) := rfl
    rw [step, parseElem_token s.data [']'] hchars, string_mk_data]
    rfl
  | s :: s' :: rest, f + 1, h, hf => by
    have hchars := (validToken_chars s (h s (by simp))).2
    have hshape : listBody (s :: s' :: rest) ++ [']'] =
        squote :: (s.data ++ squote :: (',' :: ' ' :: (listBody (s' :: rest) ++ [']']))) := by
      simp [listBody]
    rw [hshape]
    have step : parseItems true true (f + 1)
        (squote :: (s.data ++ squote :: (',' :: ' ' :: (listBody (s' :: rest) ++ [']'])))) =
        (match parseElem true
            (squote :: (s.data ++ squote :: (',' :: ' ' :: (listBody (s' :: rest) ++ [']'])))) with
        | none => none
        | some (v, r) =>
          match skipWs true r with
          | ']' :: rest2 => if isAllWs true rest2 then some [v] else none
          | ',' :: rest2 =>
            match parseItems true true f rest2 with
            | some vs => some (v :: vs)
            | none => none
          | _ => none) := rfl
    rw [step, parseElem_token s.data (',' :: ' ' :: (listBody (s' :: rest) ++ [']'])) hchars]
    show (match parseItems true true f (' ' :: (listBody (s' :: rest) ++ [']'])) with
        | some vs => some (PyVal.pstr (String.mk s.data) :: vs)
        | none => none) = some (List.map PyVal.pstr (s :: s' :: rest))
    have hf' : (s' :: rest).length + 1 ≤ f := by
      simp only [List.length_cons] at hf ⊢
      omega
    obtain ⟨f', rfl⟩ : ∃ f', f = f' + 1 := by
      cases f with
      | zero => simp at hf'
      | succ n => exact ⟨n, rfl⟩
    rw [parseItems_ws, parseItems_listBody (s' :: rest) (f' + 1)
      (fun x hx => h x (List.mem_cons_of_mem s hx)) hf', string_mk_data]
    rfl

theorem listBody_length : ∀ l : List String, l.length ≤ (listBody l).length
  | [] => by simp [listBody]
  | [s] => by simp [listBody]
  | s :: s' :: rest => by
    have ih := listBody_length (s' :: rest)
    simp only [listBody, List.length_cons, List.length_append] at ih ⊢
    omega

theorem literal_eval_pyStr (l : List String) (h : ∀ s ∈ l, isValidToken s = true) :
    literal_eval (pyStrOfList l) = some (PyVal.plist (l.map PyVal.pstr)) := by
  have hdata : (pyStrOfList l).data = '[' :: (listBody l ++ [']']) := by
    show '[' :: listBody l ++ [']'] = _
    rw [List.cons_append]
  unfold literal_eval
  rw [hdata, show skipWs true ('[' :: (listBody l ++ [']'])) = '[' :: (listBody l ++ [']']) from
    skipWs_cons_not_ws true _ _ (by decide)]
  show (parseItems true true ((listBody l ++ [']']).length + 1) (listBody l ++ [']'])).map
    PyVal.plist = _
  rw [parseItems_listBody l ((listBody l ++ [']']).length + 1) h (by
    have := listBody_length l
    simp only [List.length_append, List.length_cons, List.length_nil]
    omega)]
  rfl

theorem dropWhile_all_false (p : Char → Bool) (l : List Char)
    (h : ∀ c ∈ l, p c = false) : l.dropWhile p = l := by
  cases l with
  | nil => rfl
  | cons c cs =>
    rw [List.dropWhile_cons, h c (List.mem_cons_self c cs)]
    simp

theorem pyStrip_valid (s : String) (h : isValidToken s = true) : pyStrip s = s := by
  obtain ⟨-, hch⟩ := validToken_chars s h
  have hws : ∀ c ∈ s.data, isPyStripWs c = false :=
    fun c hc => (formulaChar_props c (hch c hc)).2.2.2.2.2.1
  unfold pyStrip
  rw [dropWhile_all_false isPyStripWs s.data hws,
    dropWhile_all_false isPyStripWs s.data.reverse
      (fun c hc => hws c (List.mem_reverse.mp hc)),
    List.reverse_reverse, string_mk_data]

theorem listBody_chars : ∀ (l : List String), (∀ s ∈ l, isValidToken s = true) →
    ∀ c ∈ listBody l, c = squote ∨ c = ',' ∨ c = ' ' ∨ isFormulaChar c = true
  | [], _, c, hc => absurd hc (by simp [listBody])
  | [s], h, c, hc => by
    simp only [listBody] at hc
    simp at hc
    rcases hc with rfl | hc | rfl
    · exact Or.inl rfl
    · exact Or.inr (Or.inr (Or.inr ((validToken_chars s (h s (by simp))).2 c hc)))
    · exact Or.inl rfl
  | s :: s' :: rest, h, c, hc => by
    simp only [listBody] at hc
    simp at hc
    rcases hc with rfl | hc | rfl | rfl | rfl | hc
    · exact Or.inl rfl
    · exact Or.inr (Or.inr (Or.inr ((validToken_chars s (h s (by simp))).2 c hc)))
    · exact Or.inl rfl
    · exact Or.inr (Or.inl rfl)
    · exact Or.inr (Or.inr (Or.inl rfl))
    · exact listBody_chars (s' :: rest) (fun x hx => h x (List.mem_cons_of_mem s hx)) c hc

theorem filterMap_validate_pstr (l : List String)
    (hval : ∀ s ∈ l, isValidToken s = true) :
    (l.map PyVal.pstr).filterMap (fun item =>
      match item with
      | PyVal.pstr s0 =>
        let t0 := pyStrip s0
        if isValidToken t0 then some t0 else none
      | _ => none) = l := by
  induction l with
  | nil => rfl
  | cons s t ih =>
    have hs := hval s (by simp)
    have iht := ih (fun x hx => hval x (List.mem_cons_of_mem s hx))
    simp only [List.map_cons, List.filterMap_cons]
    rw [pyStrip_valid s hs]
    simp [hs, iht]

theorem extract_pyStr_of_valid (l : List String)
    (hval : ∀ s ∈ l, isValidToken s = true) (hnd : l.Nodup) :
    extract_formulas (pyStrOfList l) = l := by
  have hbody := listBody_chars l hval
  have hne : ¬ (pyStrOfList l).isEmpty = true := by
    intro he
    have hdd : (pyStrOfList l).data = ("" : String).data := by
      rw [(String.isEmpty_iff _).mp he]
    simp only [pyStrOfList] at hdd
    cases hdd
  have hbtick : ∀ c ∈ (pyStrOfList l).data, c ≠ btick := by
    intro c hc
    simp only [pyStrOfList] at hc
    rcases (by simpa using hc : c = '[' ∨ c ∈ listBody l ∨ c = ']') with rfl | hmem | rfl
    · decide
    · rcases hbody c hmem with rfl | rfl | rfl | hf
      · decide
      · decide
      · decide
      · exact (formulaChar_props c hf).1
    · decide
  have hbr : ∀ c ∈ listBody l, c ≠ '[' ∧ c ≠ ']' := by
    intro c hmem
    rcases hbody c hmem with rfl | rfl | rfl | hf
    · exact ⟨by decide, by decide⟩
    · exact ⟨by decide, by decide⟩
    · exact ⟨by decide, by decide⟩
    · exact ⟨(formulaChar_props c hf).2.1, (formulaChar_props c hf).2.2.1⟩
  have hparse : pyOrJson literal_eval json_loads ('[' :: listBody l ++ [']']) =
      some (PyVal.plist (l.map PyVal.pstr)) := by
    unfold pyOrJson
    rw [show String.mk ('[' :: listBody l ++ [']']) = pyStrOfList l from rfl,
      literal_eval_pyStr l hval]
  have hdata : (pyStrOfList l).data = '[' :: listBody l ++ [']'] := rfl
  unfold extract_formulas extract_formulasE extract_formulasPE
  simp only [hne, if_false, Bool.false_eq_true]
  rw [hdata, stripFences_no_btick _ (by rw [← hdata]; exact hbtick),
    findBracket_whole (listBody l) hbr]
  simp only [hparse]
  rw [filterMap_validate_pstr l hval, dedupeKeepFirst_eq_self l hnd]

theorem extract_pyStr_roundtrip (x : String) :
    extract_formulas (pyStrOfList (extract_formulas x)) = extract_formulas x :=
  extract_pyStr_of_valid (extract_formulas x)
    (extract_formulas_valid x).1 (extract_formulas_valid x).2

/-- Counterexample to C7 as stated: the claimed input does not exist.  The
claim asserts some string `x` has
`extract(str(extract(x))) ≠ extract(x)`; in fact the equation holds for
every `x` (see `extract_pyStr_roundtrip`), because every output of
`extract_formulas` is a deduplicated list of bracket-, quote- and
whitespace-free tokens whose Python `str()` rendering re-parses to
exactly the same list. -/
theorem c7_roundtrip_counterexample :
    ¬ ∃ x : String, extract_formulas (pyStrOfList (extract_formulas x)) ≠ extract_formulas x := by
  rintro ⟨x, hx⟩
  exact hx (extract_pyStr_roundtrip x)

/-- C7 (amended): the round-trip equation
`extract(str(extract(x))) == extract(x)` holds for every string input
`x`: re-extracting the stringified output of `extract_formulas` always
reproduces the original output. -/
theorem c7_roundtrip_always_holds (x : String) :
    extract_formulas (pyStrOfList (extract_formulas x)) = extract_formulas x :=
  extract_pyStr_roundtrip x
